import Mathlib

/-!
Verification development for the PowerTrader position-management engine
(`pt_trader.py`, `pt_creds.py`).  Numeric values that the Python source
holds as floats are embedded as rationals (`ℚ`); the algorithms under
study are exact arithmetic over those values.  Python dictionaries are
embedded as total functions with `Option` results, and in-place mutation
as explicit state passing.
-/

namespace PowerTrader

/-! ### Python string helpers

`pyStrip` models Python `str.strip()` (remove leading and trailing
whitespace).  We keep it on `List Char` so that its interaction with
generated strings is easy to reason about. -/

def pyStripList (cs : List Char) : List Char :=
  ((cs.dropWhile Char.isWhitespace).reverse.dropWhile Char.isWhitespace).reverse

def pyStrip (s : String) : String :=
  ⟨pyStripList s.toList⟩

/-- Python `str.lower()` (ASCII letters, which is all the source feeds it). -/
def pyLower (s : String) : String :=
  ⟨s.toList.map Char.toLower⟩

/-- Python `str.upper()` (ASCII letters, which is all the source feeds it). -/
def pyUpper (s : String) : String :=
  ⟨s.toList.map Char.toUpper⟩

/-- Python `str(symbol).upper().split("-")[0].strip()` from `_record_trade`
(`split("-")[0]` is the prefix before the first dash). -/
def baseOf (symbol : String) : String :=
  pyStrip ⟨(pyUpper symbol).toList.takeWhile (· ≠ '-')⟩

/-! ### Accounting ledger (`_record_trade`, pt_trader.py lines 655-791)

The ledger holds the cumulative realized profit and the per-symbol open
position cost/quantity.  `recordTradeDelta` is the balance-delta based
accounting path of `_record_trade` (the path taken whenever
`buying_power_delta` is supplied and parses as a number). -/

structure Position where
  usd_cost : ℚ
  qty : ℚ
deriving DecidableEq, Repr

structure Ledger where
  total_realized_profit_usd : ℚ
  open_positions : String → Option Position

/-- Dust threshold on remaining quantity (`1e-12` in the source). -/
def dustQty : ℚ := 1e-12

/-- Dust threshold on remaining USD cost (`1e-6` in the source). -/
def dustCost : ℚ := 1e-6

/-- The balance-delta accounting branch of `_record_trade`.
`side`/`symbol` are normalized exactly as the source does; on a buy the
absolute balance decrease is added to the position cost, on a sell the
cost removed is pro-rata by quantity and the realized profit is the
clamped balance increase minus the cost removed.  The position entry is
popped when the remaining quantity is `≤ 1e-12` or the remaining cost is
`≤ 1e-6`. -/
def recordTradeDelta (side symbol : String) (qty : ℚ) (bpDelta : ℚ)
    (L : Ledger) : Ledger :=
  let side_l := pyStrip (pyLower side)
  let base := baseOf symbol
  if base = "" then L
  else
    -- pos = open_pos.get(base) or a fresh {usd_cost: 0, qty: 0}
    let pos := (L.open_positions base).getD ⟨0, 0⟩
    let pos_usd_cost := pos.usd_cost
    let pos_qty := pos.qty
    let q := qty
    if side_l = "buy" then
      let usd_used := if -bpDelta < 0 then 0 else -bpDelta
      let pos' : Position :=
        ⟨pos_usd_cost + usd_used, pos_qty + (if 0 < q then q else 0)⟩
      { L with open_positions :=
          fun b => if b = base then some pos' else L.open_positions b }
    else if side_l = "sell" then
      let usd_got := if bpDelta < 0 then 0 else bpDelta
      let frac : ℚ := if 0 < pos_qty ∧ 0 < q then min 1 (q / pos_qty) else 1
      let cost_used := pos_usd_cost * frac
      let new_cost := pos_usd_cost - cost_used
      let new_qty := pos_qty - (if 0 < q then q else 0)
      let realized := usd_got - cost_used
      let removed : Prop := new_qty ≤ dustQty ∨ new_cost ≤ dustCost
      { total_realized_profit_usd := L.total_realized_profit_usd + realized
        open_positions :=
          if removed then
            fun b => if b = base then none else L.open_positions b
          else
            fun b => if b = base then some ⟨new_cost, new_qty⟩
                     else L.open_positions b }
    else
      -- the dict-ensure step inserted the (possibly fresh) entry
      { L with open_positions :=
          fun b => if b = base then some pos else L.open_positions b }

/-- Ledger used by the C1 counterexample: an open BTC position with
`usd_cost = 2e-6` and `qty = 2`. -/
def dustOrLedger : Ledger :=
  ⟨0, fun b => if b = "BTC" then some ⟨2/1000000, 2⟩ else none⟩

/-- Ledger used by the C1 witness: an open BTC position worth 100 USD, qty 2. -/
def wLedger : Ledger :=
  ⟨7, fun b => if b = "BTC" then some ⟨100, 2⟩ else none⟩

/-! ### DCA rate window (`_dca_window_count`, `_note_dca_buy`,
`_reset_dca_window_for_trade`, pt_trader.py lines 1073-1107)

Per-symbol lists of DCA-buy timestamps plus the timestamp of the most
recent sell.  `_dca_last_sell_ts.get(base, 0.0)` and
`_dca_buy_ts.get(base, [])` are embedded as total functions with those
defaults. -/

/-- Python `str(base_symbol).upper().strip()`. -/
def normSym (s : String) : String := pyStrip (pyUpper s)

structure DcaWindowState where
  buyTs : String → List ℚ
  lastSellTs : String → ℚ

/-- `self.dca_window_seconds = 24 * 60 * 60`. -/
def dcaWindowSeconds : ℚ := 24 * 60 * 60

/-- `_dca_window_count`: prunes the symbol's buy timestamps to those
strictly after the last sell and inside the rolling window ending at
`now`, writes the pruned list back, and returns its length. -/
def dcaWindowCount (st : DcaWindowState) (sym : String) (now : ℚ) :
    ℕ × DcaWindowState :=
  let base := normSym sym
  if base = "" then (0, st)
  else
    let cutoff := now - dcaWindowSeconds
    let lastSell := st.lastSellTs base
    let kept := (st.buyTs base).filter
      (fun t => decide (lastSell < t) && decide (cutoff ≤ t))
    (kept.length,
     { st with buyTs := fun b => if b = base then kept else st.buyTs b })

/-- `_note_dca_buy`: append the timestamp, then prune in place (the
source calls `_dca_window_count` with `now_ts = t`). -/
def noteDcaBuy (st : DcaWindowState) (sym : String) (t : ℚ) : DcaWindowState :=
  let base := normSym sym
  if base = "" then st
  else
    let st1 : DcaWindowState :=
      { st with buyTs := fun b => if b = base then st.buyTs base ++ [t] else st.buyTs b }
    (dcaWindowCount st1 sym t).2

/-- `_reset_dca_window_for_trade`: on a sell record the sell boundary,
and in both cases clear the buy list. -/
def resetDcaWindowForTrade (st : DcaWindowState) (sym : String)
    (sold : Bool) (ts : ℚ) : DcaWindowState :=
  let base := normSym sym
  if base = "" then st
  else
    let st1 : DcaWindowState :=
      if sold then
        { st with lastSellTs := fun b => if b = base then ts else st.lastSellTs b }
      else st
    { st1 with buyTs := fun b => if b = base then [] else st1.buyTs b }

/-! ### Trailing profit-exit state machine (manage_trades,
pt_trader.py lines 1802-1898)

Per-coin state `{active, line, peak, was_above, settings_sig}`.
`trailingStep` is the per-tick update for one held coin with positive
cost basis: rebuild/reset, activation, peak/line ratchet, and the
forced-sell trigger.  The returned `Bool` is the `TRAIL_SELL` condition
(`was_above` and current sell price below the updated line). -/

structure TrailSettings where
  gapPct : ℚ
  pmNoDca : ℚ
  pmWithDca : ℚ
deriving DecidableEq, Repr

structure TrailState where
  active : Bool
  line : ℚ
  peak : ℚ
  wasAbove : Bool
  sig : TrailSettings
deriving DecidableEq, Repr

/-- `base_pm_line = avg_cost_basis * (1.0 + pm_start_pct / 100.0)` where
`pm_start_pct` is the no-DCA percentage iff no DCA stage has triggered. -/
def basePmLine (s : TrailSettings) (dcaCount : ℕ) (avgCostBasis : ℚ) : ℚ :=
  let pct := if dcaCount = 0 then s.pmNoDca else s.pmWithDca
  avgCostBasis * (1 + pct / 100)

/-- The state create/reset/re-base block (source lines 1818-1840):
create fresh state when absent or when the settings signature changed;
otherwise re-base the line to the base PM line while inactive, or clamp
it up to the base PM line while active. -/
def trailRebase (s : TrailSettings) (base : ℚ) : Option TrailState → TrailState
  | none => ⟨false, base, 0, false, s⟩
  | some st =>
    if st.sig ≠ s then ⟨false, base, 0, false, s⟩
    else if st.active = false then { st with line := base, sig := s }
    else if st.line < base then { st with line := base, sig := s }
    else { st with sig := s }

/-- One tick of the trailing state machine for a coin with positive cost
basis.  Follows the source exactly: (1) `trailRebase`; (2) compute
`above_now` against the line at that point; (3) activate when first
above, seeding the peak with the price; (4) while active, update the
peak, ratchet the line up to `max(base, peak*(1-gap))`, and fire the
exit on `was_above` with the price now below the (updated) line;
(5) store `was_above := above_now`. -/
def trailingStep (s : TrailSettings) (dcaCount : ℕ) (avgCostBasis : ℚ)
    (sellPrice : ℚ) (st? : Option TrailState) : TrailState × Bool :=
  let base := basePmLine s dcaCount avgCostBasis
  let gap := s.gapPct / 100
  let st0 := trailRebase s base st?
  let aboveNow : Bool := decide (st0.line ≤ sellPrice)
  let st1 : TrailState :=
    if st0.active = false ∧ aboveNow = true then { st0 with active := true, peak := sellPrice }
    else st0
  if st1.active = true then
    let peak' := if st1.peak < sellPrice then sellPrice else st1.peak
    let nl0 := peak' * (1 - gap)
    let newLine := if nl0 < base then base else nl0
    let line' := if st1.line < newLine then newLine else st1.line
    let fired : Bool := st1.wasAbove && decide (sellPrice < line')
    (⟨true, line', peak', aboveNow, s⟩, fired)
  else
    (⟨st1.active, st1.line, st1.peak, aboveNow, s⟩, false)

/-- Folding `trailingStep` over a price sequence (constant settings, cost
basis and DCA count), keeping only the state. -/
def trailRun (s : TrailSettings) (dcaCount : ℕ) (avgCostBasis : ℚ)
    (st : TrailState) (prices : List ℚ) : TrailState :=
  prices.foldl (fun acc p => (trailingStep s dcaCount avgCostBasis p (some acc)).1) st

/-- Invariant carried by every state the step function emits: while
active, the line sits at or above both the base profit-start line and
`peak * (1 - gap)`. -/
def TrailInv (s : TrailSettings) (dcaCount : ℕ) (avgCostBasis : ℚ)
    (st : TrailState) : Prop :=
  st.active = true →
    basePmLine s dcaCount avgCostBasis ≤ st.line ∧
    st.peak * (1 - s.gapPct / 100) ≤ st.line

/-! ### DCA escalation decision (manage_trades, pt_trader.py lines 1909-2000)

The per-coin, per-tick DCA decision for a held coin with positive cost
basis: trigger check (hard loss ladder or external signal level), the
rate-window and cooldown gate, the buying-power check, and the state
updates on a successful buy.  Whether the exchange accepts the order is
an input (`orderSucceeds`). -/

inductive DcaAction where
  | hold
  | skipWindow
  | skipCooldown
  | skipFunds
  | buyFail
  | buySuccess
deriving DecidableEq, Repr

structure DcaDecision where
  stage : ℕ
  window : DcaWindowState
  trailing : Option TrailState
  action : DcaAction

/-- Python `max(list)` (the source only calls it on nonempty lists;
`0` stands in for the empty case). -/
def listMax : List ℚ → ℚ
  | [] => 0
  | x :: xs => xs.foldl max x

/-- `self.dca_levels[current_stage] if current_stage < len(self.dca_levels)
else self.dca_levels[-1]` (the last hard threshold repeats forever). -/
def dcaHardLevel (levels : List ℚ) (stage : ℕ) : ℚ :=
  if stage < levels.length then levels.getD stage 0 else levels.getLastD 0

/-- The trigger disjunction: hard loss threshold hit, or (for stages
below 4) external signal level at least `stage + 4` while P&L is
negative. -/
def dcaTrigger (levels : List ℚ) (stage : ℕ) (gainLossPctBuy : ℚ)
    (neuralLevel : ℤ) : Prop :=
  gainLossPctBuy ≤ dcaHardLevel levels stage
  ∨ (stage < 4 ∧ gainLossPctBuy < 0 ∧ (stage : ℤ) + 4 ≤ neuralLevel)

instance (levels : List ℚ) (stage : ℕ) (g : ℚ) (n : ℤ) :
    Decidable (dcaTrigger levels stage g n) := by
  unfold dcaTrigger; infer_instance

/-- The cooldown leg of the gate as the spec states it: no cooldown
configured, no prior DCA buy on record, or the last DCA buy at least
`cooldownMinutes` minutes old. -/
def dcaCooldownSatisfied (cooldownMin : ℕ) (tsList : List ℚ) (now : ℚ) : Prop :=
  cooldownMin = 0 ∨ tsList = [] ∨ (cooldownMin : ℚ) * 60 ≤ now - listMax tsList

/-- One DCA decision for a held coin (source lines 1909-2000), given the
current stage (`len(self.dca_levels_triggered[symbol])`), the rate
window, and the trailing state.  On a successful buy the completed stage
is appended (stage count + 1), the buy timestamp is recorded, and the
trailing state is popped; every other outcome leaves stage and trailing
untouched. -/
def dcaStep (levels : List ℚ) (maxBuys cooldownMin : ℕ)
    (value multiplier buyingPower : ℚ)
    (gainLossPctBuy : ℚ) (neuralLevel : ℤ)
    (orderSucceeds : Bool) (now : ℚ) (sym : String)
    (stage : ℕ) (window : DcaWindowState) (trailing : Option TrailState) :
    DcaDecision :=
  if dcaTrigger levels stage gainLossPctBuy neuralLevel then
    let pr := dcaWindowCount window sym now
    let recentDca := pr.1
    let window1 := pr.2
    -- `last_ts_list = list(self._dca_buy_ts.get(symbol, []) or [])`,
    -- read after `_dca_window_count` pruned it in place
    let lastTsList := window1.buyTs sym
    let cooldownOk : Bool :=
      if 0 < cooldownMin then
        if lastTsList ≠ [] then
          decide ((cooldownMin : ℚ) * 60 ≤ now - listMax lastTsList)
        else true
      else true
    if maxBuys ≤ recentDca then ⟨stage, window1, trailing, .skipWindow⟩
    else if cooldownOk = false then ⟨stage, window1, trailing, .skipCooldown⟩
    else if value * multiplier ≤ buyingPower then
      if orderSucceeds then
        ⟨stage + 1, noteDcaBuy window1 sym now, none, .buySuccess⟩
      else ⟨stage, window1, trailing, .buyFail⟩
    else ⟨stage, window1, trailing, .skipFunds⟩
  else ⟨stage, window, trailing, .hold⟩

/-! ### Order history, cost basis (calculate_cost_basis, pt_trader.py
lines 1218-1281) and DCA stage reconstruction (initialize_dca_levels,
lines 926-1010)

Orders are the normalized dictionaries `get_orders` produces; creation
timestamps are embedded as naturals (the source compares ISO strings,
a total order). -/

structure Execution where
  quantity : ℚ
  effective_price : ℚ
deriving DecidableEq, Repr

structure Order where
  side : String
  state : String
  created_at : ℕ
  executions : List Execution
deriving DecidableEq, Repr

/-- Stable insertion keeping ascending `created_at` order (equal keys
keep their original relative order, as Python's stable sort does). -/
def insertByCreatedAsc (x : Order) : List Order → List Order
  | [] => [x]
  | y :: ys =>
    if y.created_at ≤ x.created_at then y :: insertByCreatedAsc x ys
    else x :: y :: ys

/-- Python `list.sort(key=lambda o: o["created_at"])` (stable ascending). -/
def sortByCreatedAsc (l : List Order) : List Order :=
  l.foldl (fun acc x => insertByCreatedAsc x acc) []

/-- Stable insertion keeping descending `created_at` order. -/
def insertByCreatedDesc (x : Order) : List Order → List Order
  | [] => [x]
  | y :: ys =>
    if x.created_at ≤ y.created_at then y :: insertByCreatedDesc x ys
    else x :: y :: ys

/-- Python `list.sort(key=..., reverse=True)` (stable descending). -/
def sortByCreatedDesc (l : List Order) : List Order :=
  l.foldl (fun acc x => insertByCreatedDesc x acc) []

/-- The filled buy orders, newest first, as `calculate_cost_basis`
builds them. -/
def filledBuysDesc (orders : List Order) : List Order :=
  sortByCreatedDesc (orders.filter fun o =>
    decide (o.side = "buy") && decide (o.state = "filled"))

/-- The inner execution loop of `calculate_cost_basis`: consume
executions until the remaining quantity is accounted for, accumulating
quantity×price into the total; returns (remaining, total). -/
def execWalk : List Execution → ℚ → ℚ → ℚ × ℚ
  | [], remaining, total => (remaining, total)
  | e :: es, remaining, total =>
    if remaining ≤ 0 then (remaining, total)
    else if remaining < e.quantity then (0, total + remaining * e.effective_price)
    else execWalk es (remaining - e.quantity) (total + e.quantity * e.effective_price)

/-- The outer order loop of `calculate_cost_basis` (breaks as soon as
the holding is fully accounted for). -/
def orderWalk : List Order → ℚ → ℚ → ℚ × ℚ
  | [], remaining, total => (remaining, total)
  | o :: os, remaining, total =>
    let rt := execWalk o.executions remaining total
    if rt.1 ≤ 0 then rt else orderWalk os rt.1 rt.2

/-- `calculate_cost_basis` for one asset: walk the filled buys newest
first; if history cannot account for the whole holding, value the
remainder at the current (fallback) price when that price is positive;
divide by the held quantity. -/
def calculateCostBasisSym (orders : List Order) (currentQty : ℚ)
    (fallbackPrice : ℚ) : ℚ :=
  let buys := filledBuysDesc orders
  let rt := orderWalk buys currentQty 0
  let remaining := rt.1
  let totalCost := rt.2
  if 0 < currentQty then
    let totalCost' :=
      if 0 < remaining ∧ 0 < fallbackPrice then
        totalCost + remaining * fallbackPrice
      else totalCost
    totalCost' / currentQty
  else 0

/-- Modelled from the spec: consume a newest-first stream of fills,
taking from each fill the quantity still needed, and return the matched
cost together with the quantity history could not account for. -/
def lifoConsume : List Execution → ℚ → ℚ × ℚ
  | [], need => (0, need)
  | e :: es, need =>
    if need ≤ 0 then (0, need)
    else if need ≤ e.quantity then (need * e.effective_price, 0)
    else
      let cr := lifoConsume es (need - e.quantity)
      (e.quantity * e.effective_price + cr.1, cr.2)

/-- Modelled from the spec: the LIFO-matched weighted average cost —
flatten the filled buys newest-first into one fill stream, match the
held quantity against it, value any unaccounted quantity at the supplied
fallback price, and divide by the held quantity. -/
def lifoMatchedAvgCost (orders : List Order) (currentQty : ℚ)
    (fallbackPrice : ℚ) : ℚ :=
  let fills := (filledBuysDesc orders).flatMap (fun o => o.executions)
  let cr := lifoConsume fills currentQty
  (cr.1 + max cr.2 0 * fallbackPrice) / currentQty

/-- `initialize_dca_levels` for one symbol: the reconstructed DCA stage
count is the number of filled buy orders strictly after the first buy
that follows the most recent filled sell (all buys when no sell
exists); `0` when no relevant buy exists. -/
def stagesFromHistory (orders : List Order) : ℕ :=
  let filled := orders.filter fun o =>
    decide (o.state = "filled") && (decide (o.side = "buy") || decide (o.side = "sell"))
  let sorted := sortByCreatedAsc filled
  let lastSellTime : Option ℕ :=
    (sorted.reverse.find? (fun o => decide (o.side = "sell"))).map (·.created_at)
  let relevant :=
    match lastSellTime with
    | some t => sorted.filter fun (o : Order) =>
        decide (o.side = "buy") && decide (t < o.created_at)
    | none => sorted.filter fun (o : Order) => decide (o.side = "buy")
  match relevant with
  | [] => 0
  | first :: _ =>
    (relevant.filter fun (o : Order) => decide (first.created_at < o.created_at)).length

/-! ### External signal readers (`_read_long_dca_signal`,
`_read_short_dca_signal`, `_read_long_price_levels`, pt_trader.py lines
837-922)

File contents are `Option String` (`none` = the file is missing or
unreadable, so the `open`/`read` raises and the `except` branch runs).
`pyParseFloat` models Python `float(...)` on finite decimal notation
(optional sign, digits with optional fraction, optional exponent);
`inf`/`nan` inputs — on which the subsequent `int(...)` raises — parse
to `none`, which lands in the same `except → default` branch. -/

/-- Digits of a literal to a natural (most significant first). -/
def digitsToNat (ds : List Char) : ℕ :=
  ds.foldl (fun n c => 10 * n + (c.toNat - 48)) 0

/-- Optional leading sign, as a rational factor. -/
def parseSign : List Char → ℚ × List Char
  | '+' :: rest => (1, rest)
  | '-' :: rest => (-1, rest)
  | cs => (1, cs)

/-- Optional leading sign, as an integer factor (exponents). -/
def parseSignInt : List Char → ℤ × List Char
  | '+' :: rest => (1, rest)
  | '-' :: rest => (-1, rest)
  | cs => (1, cs)

/-- Python `float(s)` on finite decimal/scientific notation; `none` when
the whole string is not such a literal. -/
def pyParseFloat (s : String) : Option ℚ :=
  let sc := parseSign s.toList
  let sgn := sc.1
  let cs1 := sc.2
  let intDs := cs1.takeWhile Char.isDigit
  let cs2 := cs1.dropWhile Char.isDigit
  let hasDot : Bool := match cs2 with | '.' :: _ => true | _ => false
  let fracDs := if hasDot then (cs2.drop 1).takeWhile Char.isDigit else []
  let cs3 := if hasDot then (cs2.drop 1).dropWhile Char.isDigit else cs2
  if intDs.length = 0 ∧ fracDs.length = 0 then none
  else
    let mantissa : ℚ :=
      sgn * ((digitsToNat intDs : ℚ) + (digitsToNat fracDs : ℚ) / 10 ^ fracDs.length)
    match cs3 with
    | [] => some mantissa
    | e :: rest =>
      if e = 'e' ∨ e = 'E' then
        let se := parseSignInt rest
        let eDs := se.2.takeWhile Char.isDigit
        let rest2 := se.2.dropWhile Char.isDigit
        if eDs.length = 0 ∨ rest2 ≠ [] then none
        else some (mantissa * (10 : ℚ) ^ (se.1 * (digitsToNat eDs : ℤ)))
      else none

/-- Python `int(q)` on a float value: truncation toward zero. -/
def pyTruncInt (q : ℚ) : ℤ :=
  if 0 ≤ q then ⌊q⌋ else -⌊-q⌋

/-- `_read_long_dca_signal`: `int(float(raw.strip()))`, any failure
(missing file, unparseable content) yields the neutral default 0. -/
def readLongDcaSignal (content : Option String) : ℤ :=
  match content with
  | none => 0
  | some txt =>
    match pyParseFloat (pyStrip txt) with
    | some q => pyTruncInt q
    | none => 0

/-- `_read_short_dca_signal`: identical logic on the short-signal file. -/
def readShortDcaSignal (content : Option String) : ℤ :=
  match content with
  | none => 0
  | some txt =>
    match pyParseFloat (pyStrip txt) with
    | some q => pyTruncInt q
    | none => 0

/-- Python `str.strip(chars)`: drop the given characters from both ends. -/
def pyStripChars (chars : List Char) (cs : List Char) : List Char :=
  ((cs.dropWhile (fun c => chars.contains c)).reverse.dropWhile
    (fun c => chars.contains c)).reverse

/-- The separator normalization of `_read_long_price_levels`
(`,` `;` `|` `\n` `\t` all become spaces). -/
def sepToSpace (c : Char) : Char :=
  if c = ',' ∨ c = ';' ∨ c = '|' ∨ c = '\n' ∨ c = '\t' then ' ' else c

/-- Python `str.split()` — split on whitespace runs, no empty tokens. -/
def splitWsAux : List Char → List Char → List (List Char)
  | [], acc => if acc = [] then [] else [acc.reverse]
  | c :: cs, acc =>
    if c.isWhitespace then
      if acc = [] then splitWsAux cs [] else acc.reverse :: splitWsAux cs []
    else splitWsAux cs (c :: acc)

def pySplitWs (cs : List Char) : List String :=
  (splitWsAux cs []).map (fun t => ⟨t⟩)

/-- Python `round(v, 12)` used only as a de-duplication key.  (Python
rounds floats half-to-even; this embedding rounds half-up.  The readers'
properties proved below do not depend on the tie-breaking rule, only on
the key being a function of the value.) -/
def round12 (q : ℚ) : ℚ := (round (q * 10 ^ 12) : ℚ) / 10 ^ 12

/-- The `seen`-set de-duplication loop of `_read_long_price_levels`. -/
def dedupeByRound : List ℚ → List ℚ → List ℚ
  | _, [] => []
  | seen, v :: vs =>
    if round12 v ∈ seen then dedupeByRound seen vs
    else v :: dedupeByRound (round12 v :: seen) vs

/-- Insertion into a descending-sorted list. -/
def insertDescQ (x : ℚ) : List ℚ → List ℚ
  | [] => [x]
  | y :: ys => if y < x then x :: y :: ys else y :: insertDescQ x ys

/-- Python `list.sort(reverse=True)` on rationals. -/
def sortDescQ (l : List ℚ) : List ℚ := l.foldr insertDescQ []

/-- `_read_long_price_levels`: strip, early-return `[]` on empty, strip
brackets, normalize separators, split on whitespace, parse each token
(skipping failures), de-duplicate by 12-decimal key, sort descending.
Missing/unreadable file (`none`) returns `[]` via the `except` branch. -/
def readLongPriceLevels (content : Option String) : List ℚ :=
  match content with
  | none => []
  | some txt =>
    let raw := pyStripList txt.toList
    if raw = [] then []
    else
      let raw1 := pyStripChars ['[', ']', '(', ')'] (pyStripList raw)
      let raw2 := raw1.map sepToSpace
      let parts := pySplitWs raw2
      let vals := parts.filterMap pyParseFloat
      let out := dedupeByRound [] vals
      sortDescQ out

/-! ### Tick-tail effects (manage_trades, pt_trader.py lines 2050-2159)

What the orchestrator does after the per-coin loops: if the trading-pairs
fetch failed the method returns early; otherwise the cost basis is
recomputed and the DCA stages recounted only when a trade executed this
tick, while the status snapshot write and the account-value-history
append run unconditionally. -/

structure TickOutputs where
  recomputedCostBasis : Bool
  recountedDcaStages : Bool
  wroteStatusSnapshot : Bool
  appendedAccountValueHistory : Bool
deriving DecidableEq, Repr

def manageTradesTail (tradingPairsEmpty tradesMade : Bool) : TickOutputs :=
  if tradingPairsEmpty then ⟨false, false, false, false⟩
  else
    { recomputedCostBasis := tradesMade
      recountedDcaStages := tradesMade
      wroteStatusSnapshot := true
      appendedAccountValueHistory := true }

/-! ### Credential store (pt_creds.py)

`encrypt_credentials` writes the PBKDF2 salt hex-encoded to a text file
and the Fernet token of the JSON payload to a binary file;
`decrypt_credentials` reads them back.  The `cryptography` library
primitives (Fernet, PBKDF2) and the `json` payload codec are external
and enter the embedding through their documented contracts:
decrypting with the key that encrypted recovers the payload, and
`json.loads(json.dumps({...}))` recovers the two fields.  The key
derivation is an arbitrary function of passphrase and salt — its rôle
in the round trip is only determinism.  The repository's own code — the
salt hex round trip through the text file, the path reuse, and the
plumbing — is embedded concretely. -/

structure FernetLike (Key Payload Token : Type) where
  encrypt : Key → Payload → Token
  decrypt : Key → Token → Option Payload
  decrypt_encrypt : ∀ k p, decrypt k (encrypt k p) = some p

structure JsonCredCodec (Payload : Type) where
  dumps : String → String → Payload
  loads : Payload → Option (String × String)
  loads_dumps : ∀ k s, loads (dumps k s) = some (k, s)

def hexDigitChar (n : ℕ) : Char :=
  "0123456789abcdef".toList.getD n '0'

/-- One byte to two lowercase hex digits, as `bytes.hex()` does. -/
def byteToHexChars (b : ℕ) : List Char :=
  [hexDigitChar (b / 16), hexDigitChar (b % 16)]

/-- Python `bytes.hex()`. -/
def bytesHex (bs : List ℕ) : String :=
  ⟨bs.flatMap byteToHexChars⟩

def hexDigitVal (c : Char) : Option ℕ :=
  if c.isDigit then some (c.toNat - 48)
  else if 'a' ≤ c ∧ c ≤ 'f' then some (c.toNat - 87)
  else if 'A' ≤ c ∧ c ≤ 'F' then some (c.toNat - 55)
  else none

/-- Python `bytes.fromhex` on a plain (space-free) hex string. -/
def bytesFromHexList : List Char → Option (List ℕ)
  | [] => some []
  | [_] => none
  | c1 :: c2 :: rest =>
    match hexDigitVal c1, hexDigitVal c2, bytesFromHexList rest with
    | some h, some l, some bs => some ((16 * h + l) :: bs)
    | _, _, _ => none

/-- The two credential files, keyed by path (text and binary stores kept
apart, mirroring the `"w"` / `"wb"` open modes). -/
structure CredFS (Token : Type) where
  textFiles : String → Option String
  binFiles : String → Option Token

def osPathJoin (dir name : String) : String := dir ++ "/" ++ name

def saltFileName : String := "cb_credentials.salt"

def encFileName : String := "cb_credentials.enc"

/-- `encrypt_credentials(base_dir, passphrase, key, secret)` with the
fresh `os.urandom(16)` salt passed in explicitly. -/
def encrypt_credentials {Key Payload Token : Type}
    (cipher : FernetLike Key Payload Token) (codec : JsonCredCodec Payload)
    (deriveKey : String → List ℕ → Key)
    (fs : CredFS Token) (baseDir passphrase key secret : String)
    (salt : List ℕ) : CredFS Token :=
  let fernetKey := deriveKey passphrase salt
  let token := cipher.encrypt fernetKey (codec.dumps key secret)
  let saltPath := osPathJoin baseDir saltFileName
  let encPath := osPathJoin baseDir encFileName
  { textFiles := fun p => if p = saltPath then some (bytesHex salt) else fs.textFiles p
    binFiles := fun p => if p = encPath then some token else fs.binFiles p }

/-- `decrypt_credentials(base_dir, passphrase)`: read and strip the salt
hex, decode it, read the token, derive the key, decrypt, decode the JSON
payload.  Failures anywhere give `none` (in the source they raise). -/
def decrypt_credentials {Key Payload Token : Type}
    (cipher : FernetLike Key Payload Token) (codec : JsonCredCodec Payload)
    (deriveKey : String → List ℕ → Key)
    (fs : CredFS Token) (baseDir passphrase : String) :
    Option (String × String) :=
  match fs.textFiles (osPathJoin baseDir saltFileName) with
  | none => none
  | some content =>
    match bytesFromHexList (pyStripList content.toList) with
    | none => none
    | some salt =>
      match fs.binFiles (osPathJoin baseDir encFileName) with
      | none => none
      | some token =>
        match cipher.decrypt (deriveKey passphrase salt) token with
        | none => none
        | some payload => codec.loads payload

/-- Concrete cipher for the C10 witness: the token carries key and
payload, decryption checks the key. -/
def wCipher :
    FernetLike (String × List ℕ) (String × String)
      ((String × List ℕ) × (String × String)) :=
  { encrypt := fun k p => (k, p)
    decrypt := fun k t => if t.1 = k then some t.2 else none
    decrypt_encrypt := by intro k p; simp }

/-- Concrete payload codec for the C10 witness. -/
def wCodec : JsonCredCodec (String × String) :=
  { dumps := fun k s => (k, s)
    loads := some
    loads_dumps := fun _ _ => rfl }

def wDeriveKey : String → List ℕ → String × List ℕ := fun p s => (p, s)

def wEmptyFS : CredFS ((String × List ℕ) × (String × String)) :=
  ⟨fun _ => none, fun _ => none⟩

/-- Two filled buy orders (older: 2 units at 10; newer: 1 unit at 20) for
the C3 witness. -/
def wCbOrder1 : Order := ⟨"buy", "filled", 1, [⟨2, 10⟩]⟩

def wCbOrder2 : Order := ⟨"buy", "filled", 5, [⟨1, 20⟩]⟩

/-- Empty rate-window state for the C5/C6 witnesses. -/
def wWindow2 : DcaWindowState := ⟨fun _ => [], fun _ => 0⟩

/-- Filled buy order for the C5 witness. -/
def wBuyOrder : Order := ⟨"buy", "filled", 1, []⟩

/-- Filled sell order (after the buy) for the C5 witness. -/
def wSellOrder : Order := ⟨"sell", "filled", 5, []⟩

/-- Rate-window state for the C7 witness (arbitrary pre-reset content). -/
def wWindowState : DcaWindowState := ⟨fun _ => [5], fun _ => 99⟩

/-!
## Theorems
-/

/-- C1 (counterexample): selling 1 of 2 units held at total cost `2e-6`
USD leaves remaining cost `1e-6 ≤` the cost dust threshold, so the code
removes the `open_positions` entry — although the resulting quantity, 1,
is nowhere near its dust threshold.  Removal is therefore not "iff both
resulting quantity and cost are below the dust threshold": the code
removes on either one. -/
theorem recordTrade_dust_removal_not_both :
    (recordTradeDelta "sell" "BTC-USD" 1 5 dustOrLedger).open_positions "BTC" = none
    ∧ ¬((2:ℚ) - 1 ≤ dustQty) := by
  constructor
  · have hb : baseOf "BTC-USD" = "BTC" := by decide
    have hs1 : ¬(pyStrip (pyLower "sell") = "buy") := by decide
    have hs2 : pyStrip (pyLower "sell") = "sell" := by decide
    unfold recordTradeDelta dustOrLedger
    rw [hb]
    norm_num [hs1, hs2, dustQty, dustCost, min_def]
    decide
  · norm_num [dustQty]

/-- C1 (amended): for a recorded sell with a usable balance delta
`d ≥ 0` against an open position of cost `c` and quantity `oq > 0`, the
cost removed is `c * min 1 (q / oq)`, the realized P&L added to the
cumulative total is `d - c * min 1 (q / oq)`, and the `open_positions`
entry is removed iff the resulting quantity is `≤ 1e-12` **or** the
resulting cost is `≤ 1e-6` (not "iff both are below"). -/
theorem recordTrade_sell_ledger
    (L : Ledger) (sym : String) (c oq q d : ℚ)
    (hb : ¬ baseOf sym = "")
    (hpos : L.open_positions (baseOf sym) = some ⟨c, oq⟩)
    (hoq : 0 < oq) (hq : 0 < q) (hd : 0 ≤ d) :
    (recordTradeDelta "sell" sym q d L).total_realized_profit_usd
      = L.total_realized_profit_usd + (d - c * min 1 (q / oq))
    ∧ ((recordTradeDelta "sell" sym q d L).open_positions (baseOf sym) = none
        ↔ (oq - q ≤ dustQty ∨ c - c * min 1 (q / oq) ≤ dustCost))
    ∧ (¬(oq - q ≤ dustQty ∨ c - c * min 1 (q / oq) ≤ dustCost) →
        (recordTradeDelta "sell" sym q d L).open_positions (baseOf sym)
          = some ⟨c - c * min 1 (q / oq), oq - q⟩) := by
  have hs1 : ¬ (pyStrip (pyLower "sell") = "buy") := by decide
  have hs2 : pyStrip (pyLower "sell") = "sell" := by decide
  have hgot : ¬ (d < 0) := not_lt.mpr hd
  unfold recordTradeDelta
  rw [if_neg hb]
  simp only [hpos, Option.getD_some, if_neg hs1, hs2, if_pos rfl,
    if_pos (And.intro hoq hq), if_neg hgot, if_pos hq]
  refine ⟨rfl, ?_, ?_⟩
  · by_cases hrem : (oq - q ≤ dustQty ∨ c - c * min 1 (q / oq) ≤ dustCost)
    · rw [if_pos hrem]
      refine iff_of_true ?_ hrem
      simp
    · rw [if_neg hrem]
      refine iff_of_false ?_ hrem
      simp
  · intro hrem
    rw [if_neg hrem]
    simp

/-- C1 (witness): the amended theorem applied to a concrete partial
sell — 1 of 2 BTC held at cost 100 USD, balance delta 60. -/
theorem recordTrade_sell_ledger_witness :
    (recordTradeDelta "sell" "BTC-USD" 1 60 wLedger).total_realized_profit_usd
      = wLedger.total_realized_profit_usd + (60 - 100 * min 1 ((1:ℚ) / 2))
    ∧ ((recordTradeDelta "sell" "BTC-USD" 1 60 wLedger).open_positions (baseOf "BTC-USD") = none
        ↔ ((2:ℚ) - 1 ≤ dustQty ∨ (100:ℚ) - 100 * min 1 ((1:ℚ) / 2) ≤ dustCost))
    ∧ (¬((2:ℚ) - 1 ≤ dustQty ∨ (100:ℚ) - 100 * min 1 ((1:ℚ) / 2) ≤ dustCost) →
        (recordTradeDelta "sell" "BTC-USD" 1 60 wLedger).open_positions (baseOf "BTC-USD")
          = some ⟨100 - 100 * min 1 ((1:ℚ) / 2), 2 - 1⟩) :=
  recordTrade_sell_ledger wLedger "BTC-USD" 100 2 1 60 (by decide)
    (by rw [show baseOf "BTC-USD" = "BTC" from by decide]; rfl)
    (by norm_num) (by norm_num) (by norm_num)

lemma dcaWindowCount_fst (st : DcaWindowState) (sym : String) (now : ℚ)
    (h : ¬ normSym sym = "") :
    (dcaWindowCount st sym now).1
      = (st.buyTs (normSym sym)).countP
          (fun t => decide (st.lastSellTs (normSym sym) < t
              ∧ now - dcaWindowSeconds ≤ t)) := by
  unfold dcaWindowCount
  rw [if_neg h]
  simp [List.countP_eq_length_filter, Bool.decide_and]

lemma dcaWindowCount_snd_buyTs (st : DcaWindowState) (sym : String) (now : ℚ)
    (h : ¬ normSym sym = "") :
    (dcaWindowCount st sym now).2.buyTs (normSym sym)
      = (st.buyTs (normSym sym)).filter
          (fun t => decide (st.lastSellTs (normSym sym) < t)
            && decide (now - dcaWindowSeconds ≤ t)) := by
  unfold dcaWindowCount
  rw [if_neg h]
  simp

lemma dcaWindowCount_snd_lastSell (st : DcaWindowState) (sym : String) (now : ℚ) :
    (dcaWindowCount st sym now).2.lastSellTs = st.lastSellTs := by
  unfold dcaWindowCount
  by_cases h : normSym sym = ""
  · rw [if_pos h]
  · rw [if_neg h]

lemma noteDcaBuy_buyTs (st : DcaWindowState) (sym : String) (τ : ℚ)
    (h : ¬ normSym sym = "") :
    (noteDcaBuy st sym τ).buyTs (normSym sym)
      = (st.buyTs (normSym sym) ++ [τ]).filter
          (fun x => decide (st.lastSellTs (normSym sym) < x)
            && decide (τ - dcaWindowSeconds ≤ x))
    ∧ (noteDcaBuy st sym τ).lastSellTs = st.lastSellTs := by
  unfold noteDcaBuy
  rw [if_neg h]
  constructor
  · rw [dcaWindowCount_snd_buyTs _ _ _ h]
    simp
  · rw [dcaWindowCount_snd_lastSell]



lemma resetDcaWindow_true_spec (st : DcaWindowState) (sym : String) (t : ℚ)
    (h : ¬ normSym sym = "") :
    (resetDcaWindowForTrade st sym true t).buyTs (normSym sym) = []
    ∧ (resetDcaWindowForTrade st sym true t).lastSellTs (normSym sym) = t := by
  unfold resetDcaWindowForTrade
  rw [if_neg h]
  simp

lemma noteDcaBuy_run (sym : String) (h : ¬ normSym sym = "") (sellT now : ℚ)
    (tss : List ℚ) :
    ∀ (st : DcaWindowState),
      st.lastSellTs (normSym sym) = sellT →
      (∀ x ∈ st.buyTs (normSym sym),
        sellT < x ∧ now - dcaWindowSeconds ≤ x ∧ x ≤ now) →
      (∀ τ ∈ tss, sellT < τ ∧ now - dcaWindowSeconds ≤ τ ∧ τ ≤ now) →
      ((tss.foldl (fun s τ => noteDcaBuy s sym τ) st).lastSellTs (normSym sym) = sellT
       ∧ (tss.foldl (fun s τ => noteDcaBuy s sym τ) st).buyTs (normSym sym)
           = st.buyTs (normSym sym) ++ tss) := by
  induction tss with
  | nil => intro st hsell _ _; simpa using hsell
  | cons τ tss ih =>
    intro st hsell hacc hts
    have hτ := hts τ (List.mem_cons_self _ _)
    have hstep := noteDcaBuy_buyTs st sym τ h
    have hWpos : (0:ℚ) ≤ dcaWindowSeconds := by norm_num [dcaWindowSeconds]
    have hall : ∀ x ∈ st.buyTs (normSym sym) ++ [τ],
        (decide (st.lastSellTs (normSym sym) < x)
          && decide (τ - dcaWindowSeconds ≤ x)) = true := by
      intro x hx
      rcases List.mem_append.mp hx with hx | hx
      · obtain ⟨h1, h2, _⟩ := hacc x hx
        have : τ - dcaWindowSeconds ≤ x := by linarith [hτ.2.2]
        simp [hsell, h1, this]
      · have hx' : x = τ := by simpa using hx
        subst hx'
        have : x - dcaWindowSeconds ≤ x := by linarith
        simp [hsell, hτ.1, this]
    have hbuy' : (noteDcaBuy st sym τ).buyTs (normSym sym)
        = st.buyTs (normSym sym) ++ [τ] := by
      rw [hstep.1, List.filter_eq_self.mpr hall]
    have hsell' : (noteDcaBuy st sym τ).lastSellTs (normSym sym) = sellT := by
      rw [hstep.2, hsell]
    have hacc' : ∀ x ∈ (noteDcaBuy st sym τ).buyTs (normSym sym),
        sellT < x ∧ now - dcaWindowSeconds ≤ x ∧ x ≤ now := by
      intro x hx
      rw [hbuy'] at hx
      rcases List.mem_append.mp hx with hx | hx
      · exact hacc x hx
      · have hx' : x = τ := by simpa using hx
        subst hx'
        exact hτ
    have hts' : ∀ τ' ∈ tss, sellT < τ' ∧ now - dcaWindowSeconds ≤ τ' ∧ τ' ≤ now :=
      fun τ' hτ' => hts τ' (List.mem_cons_of_mem _ hτ')
    have := ih (noteDcaBuy st sym τ) hsell' hacc' hts'
    simp only [List.foldl_cons]
    exact ⟨this.1, by rw [this.2, hbuy', List.append_assoc]; rfl⟩




/-- C7: `windowCount(symbol, now)` returns the number of recorded DCA-buy
timestamps strictly after the symbol's last-sell boundary and within the
rolling window ending at `now` (pruning the rest); after
`resetForTrade(sym, sold=true, t)` it returns 0; after N subsequent
`noteBuy` calls whose timestamps lie after the boundary and inside the
window it returns exactly N; and `resetForTrade` with `sold=false`
clears the buy list without changing the sell boundary. -/
theorem dca_window_operations :
    (∀ (st : DcaWindowState) (sym : String) (now : ℚ),
       ¬ normSym sym = "" →
       (dcaWindowCount st sym now).1
         = (st.buyTs (normSym sym)).countP
             (fun t => decide (st.lastSellTs (normSym sym) < t
                 ∧ now - dcaWindowSeconds ≤ t)))
    ∧ (∀ (st : DcaWindowState) (sym : String) (t now : ℚ),
       ¬ normSym sym = "" →
       (dcaWindowCount (resetDcaWindowForTrade st sym true t) sym now).1 = 0)
    ∧ (∀ (st : DcaWindowState) (sym : String) (sellT now : ℚ) (tss : List ℚ),
       ¬ normSym sym = "" →
       (∀ τ ∈ tss, sellT < τ ∧ now - dcaWindowSeconds ≤ τ ∧ τ ≤ now) →
       (dcaWindowCount
         (tss.foldl (fun s τ => noteDcaBuy s sym τ)
           (resetDcaWindowForTrade st sym true sellT)) sym now).1 = tss.length)
    ∧ (∀ (st : DcaWindowState) (sym : String) (t : ℚ),
       ¬ normSym sym = "" →
       (resetDcaWindowForTrade st sym false t).buyTs (normSym sym) = []
       ∧ (resetDcaWindowForTrade st sym false t).lastSellTs = st.lastSellTs) := by
  refine ⟨?_, ?_, ?_, ?_⟩
  · intro st sym now h
    exact dcaWindowCount_fst st sym now h
  · intro st sym t now h
    rw [dcaWindowCount_fst _ _ _ h, (resetDcaWindow_true_spec st sym t h).1]
    simp
  · intro st sym sellT now tss h hts
    have hreset := resetDcaWindow_true_spec st sym sellT h
    have hrun := noteDcaBuy_run sym h sellT now tss
      (resetDcaWindowForTrade st sym true sellT) hreset.2
      (by rw [hreset.1]; intro x hx; simp at hx) hts
    rw [dcaWindowCount_fst _ _ _ h, hrun.2, hreset.1]
    rw [List.nil_append]
    rw [List.countP_eq_length]
    intro τ hτ
    obtain ⟨h1, h2, _⟩ := hts τ hτ
    rw [hrun.1]
    simp [h1, h2]
  · intro st sym t h
    unfold resetDcaWindowForTrade
    rw [if_neg h]
    simp

/-- C7 (witness): two noted buys after a sell-reset count as exactly 2. -/
theorem dca_window_operations_witness :
    (dcaWindowCount
      (([100, 200] : List ℚ).foldl (fun s τ => noteDcaBuy s "BTC" τ)
        (resetDcaWindowForTrade wWindowState "BTC" true 0)) "BTC" 300).1
      = ([100, 200] : List ℚ).length := by
  have h := dca_window_operations.2.2.1 wWindowState "BTC" 0 300 [100, 200]
    (by decide)
    (by intro τ hτ; fin_cases hτ <;> norm_num [dcaWindowSeconds])
  exact h

lemma trailRebase_sig (s : TrailSettings) (base : ℚ) (st? : Option TrailState) :
    (trailRebase s base st?).sig = s := by
  cases st? with
  | none => rfl
  | some st =>
    show (if st.sig ≠ s then (⟨false, base, 0, false, s⟩ : TrailState)
      else if st.active = false then { st with line := base, sig := s }
      else if st.line < base then { st with line := base, sig := s }
      else { st with sig := s }).sig = s
    split_ifs <;> rfl

lemma trailRebase_line_ge (s : TrailSettings) (base : ℚ) (st? : Option TrailState) :
    base ≤ (trailRebase s base st?).line := by
  cases st? with
  | none => exact le_refl _
  | some st =>
    show base ≤ (if st.sig ≠ s then (⟨false, base, 0, false, s⟩ : TrailState)
      else if st.active = false then { st with line := base, sig := s }
      else if st.line < base then { st with line := base, sig := s }
      else { st with sig := s }).line
    split_ifs with h1 h2 h3 <;> simp <;> linarith [not_lt.mp h3]

lemma trailRebase_active (s : TrailSettings) (base : ℚ) (st? : Option TrailState)
    (h : (trailRebase s base st?).active = true) :
    ∃ st, st? = some st ∧ st.sig = s ∧ st.active = true
      ∧ (trailRebase s base st?).peak = st.peak
      ∧ (trailRebase s base st?).wasAbove = st.wasAbove
      ∧ st.line ≤ (trailRebase s base st?).line := by
  cases st? with
  | none => simp [trailRebase] at h
  | some st =>
    have hsh : trailRebase s base (some st)
        = (if st.sig ≠ s then (⟨false, base, 0, false, s⟩ : TrailState)
          else if st.active = false then { st with line := base, sig := s }
          else if st.line < base then { st with line := base, sig := s }
          else { st with sig := s }) := rfl
    rw [hsh] at h ⊢
    split_ifs at h ⊢ with h1 h2 h3
    all_goals first
      | exact ⟨st, rfl, not_not.mp (by simpa using h1), by simpa using h, rfl, rfl,
          le_of_lt h3⟩
      | exact ⟨st, rfl, not_not.mp (by simpa using h1), by simpa using h, rfl, rfl,
          le_refl _⟩
      | simp_all

lemma trailRebase_inactive (s : TrailSettings) (base : ℚ) (st? : Option TrailState)
    (h : (trailRebase s base st?).active = false) :
    (trailRebase s base st?).line = base := by
  cases st? with
  | none => rfl
  | some st =>
    have hsh : trailRebase s base (some st)
        = (if st.sig ≠ s then (⟨false, base, 0, false, s⟩ : TrailState)
          else if st.active = false then { st with line := base, sig := s }
          else if st.line < base then { st with line := base, sig := s }
          else { st with sig := s }) := rfl
    rw [hsh] at h ⊢
    split_ifs at h ⊢ with h1 h2 h3
    all_goals first
      | rfl
      | exact absurd (show st.active = false by simpa using h) h2
      | simp_all



lemma trailingStep_sig (s : TrailSettings) (dca : ℕ) (basis p : ℚ)
    (st? : Option TrailState) :
    (trailingStep s dca basis p st?).1.sig = s := by
  simp only [trailingStep]
  split_ifs <;> rfl

lemma trailingStep_inactive_wasAbove (s : TrailSettings) (dca : ℕ) (basis p : ℚ)
    (st? : Option TrailState)
    (h : (trailingStep s dca basis p st?).1.active = false) :
    (trailingStep s dca basis p st?).1.wasAbove = false := by
  simp only [trailingStep] at h ⊢
  split_ifs at h ⊢ with h1 h2
  have hd : ¬(decide ((trailRebase s (basePmLine s dca basis) st?).line ≤ p) = true) :=
    fun hdec => h1 ⟨h, hdec⟩
  simpa using hd

lemma trailingStep_inv (s : TrailSettings) (dca : ℕ) (basis p : ℚ)
    (st? : Option TrailState) :
    TrailInv s dca basis (trailingStep s dca basis p st?).1 := by
  have hge := trailRebase_line_ge s (basePmLine s dca basis) st?
  unfold TrailInv
  simp only [trailingStep]
  intro hact
  split_ifs at hact ⊢ with h1 h2 <;>
    first
      | (exact absurd (by simpa using hact) h2)
      | (constructor <;> (simp_all; try linarith))

lemma basePmLine_pos (s : TrailSettings) (dca : ℕ) (basis : ℚ)
    (hbasis : 0 < basis) (hpm0 : 0 ≤ s.pmNoDca) (hpm1 : 0 ≤ s.pmWithDca) :
    0 < basePmLine s dca basis := by
  unfold basePmLine
  split_ifs <;> positivity

lemma trailingStep_wasAbove_iff (s : TrailSettings) (dca : ℕ) (basis p : ℚ)
    (st? : Option TrailState)
    (hbasis : 0 < basis) (hgap : 0 ≤ s.gapPct)
    (hpm0 : 0 ≤ s.pmNoDca) (hpm1 : 0 ≤ s.pmWithDca)
    (hinv : ∀ st, st? = some st → TrailInv s dca basis st) :
    ((trailingStep s dca basis p st?).1.wasAbove = true ↔
      (trailingStep s dca basis p st?).1.line ≤ p) := by
  have hbase_pos : 0 < basePmLine s dca basis := basePmLine_pos s dca basis hbasis hpm0 hpm1
  have hge := trailRebase_line_ge s (basePmLine s dca basis) st?
  have hpk : (trailRebase s (basePmLine s dca basis) st?).active = true →
      (trailRebase s (basePmLine s dca basis) st?).peak * (1 - s.gapPct / 100)
        ≤ (trailRebase s (basePmLine s dca basis) st?).line := by
    intro ha
    obtain ⟨st, hsome, _, hact', hpeak, _, hline⟩ :=
      trailRebase_active s (basePmLine s dca basis) st? ha
    rw [hpeak]
    exact le_trans ((hinv st hsome) hact').2 hline
  have hmul : ∀ x : ℚ, 0 < x → x * (1 - s.gapPct / 100) ≤ x := by
    intro x hx
    have h0 : 0 ≤ x * (s.gapPct / 100) := mul_nonneg hx.le (by linarith)
    nlinarith
  simp only [trailingStep]
  split_ifs with h1 h2 h3 h4 h5 h6 h7 h8 h9 h10
  all_goals try simp only [decide_eq_true_eq] at h1
  all_goals simp
  all_goals
    constructor <;> intro h' <;>
      first
        | linarith [hge, hbase_pos]
        | (have hp : (0:ℚ) < p := by linarith [hge, hbase_pos]
           first
             | linarith [hmul p hp]
             | linarith [hmul p hp, hpk (by assumption)]
             | linarith [hmul p hp, h1.2]
             | linarith [hmul p hp, hpk (by assumption), h1.2])

set_option maxHeartbeats 1600000 in
lemma trailingStep_fired_iff (s : TrailSettings) (dca : ℕ) (basis p : ℚ)
    (st : TrailState)
    (hsig : st.sig = s) (hwa : st.active = false → st.wasAbove = false) :
    ((trailingStep s dca basis p (some st)).2 = true ↔
      (st.wasAbove = true ∧ p < (trailingStep s dca basis p (some st)).1.line)) := by
  have hns : ¬(st.sig ≠ s) := by simp [hsig]
  simp only [trailingStep, trailRebase]
  split_ifs <;> simp_all

lemma trailingStep_active_step (s : TrailSettings) (dca : ℕ) (basis p : ℚ)
    (st : TrailState) (hact : st.active = true) (hsig : st.sig = s) :
    ((trailingStep s dca basis p (some st)).1.line
       = max st.line (max (basePmLine s dca basis)
           ((trailingStep s dca basis p (some st)).1.peak * (1 - s.gapPct / 100)))
     ∧ st.line ≤ (trailingStep s dca basis p (some st)).1.line
     ∧ basePmLine s dca basis ≤ (trailingStep s dca basis p (some st)).1.line
     ∧ (trailingStep s dca basis p (some st)).1.active = true) := by
  have hns : ¬(st.sig ≠ s) := by simp [hsig]
  have hact' : ¬(st.active = false) := by simp [hact]
  have hreb : trailRebase s (basePmLine s dca basis) (some st)
      = { st with line := if st.line < basePmLine s dca basis
            then basePmLine s dca basis else st.line, sig := s } := by
    show (if st.sig ≠ s then _
      else if st.active = false then _
      else if st.line < basePmLine s dca basis then _ else _) = _
    rw [if_neg hns, if_neg hact']
    split_ifs with h <;> simp [h]
  simp only [trailingStep, hreb]
  simp only [hact, Bool.true_eq_false, false_and, if_false, if_true]
  refine ⟨?_, ?_, ?_, ?_⟩
  · simp only [max_def]
    split_ifs <;> simp_all <;> linarith
  · split_ifs <;> simp_all <;> linarith
  · split_ifs <;> simp_all <;> linarith
  · simp

/-- C2: for a held instrument with positive cost basis, the trailing exit
fires on tick k iff the previous tick's sell price was at or above the
trailing line as of that tick and the current price is below the
(updated) current line — a strict downward crossing; and a step starting
from no state (the tick that creates/arms the state) never fires. -/
theorem trailing_exit_downward_cross :
    (∀ (s : TrailSettings) (dca : ℕ) (basis p0 p1 : ℚ) (st? : Option TrailState),
       0 < basis → 0 ≤ s.gapPct → 0 ≤ s.pmNoDca → 0 ≤ s.pmWithDca →
       (∀ st, st? = some st → TrailInv s dca basis st) →
       ((trailingStep s dca basis p1 (some (trailingStep s dca basis p0 st?).1)).2 = true
         ↔ ((trailingStep s dca basis p0 st?).1.line ≤ p0
            ∧ p1 < (trailingStep s dca basis p1
                (some (trailingStep s dca basis p0 st?).1)).1.line)))
    ∧ (∀ (s : TrailSettings) (dca : ℕ) (basis p : ℚ),
       (trailingStep s dca basis p none).2 = false) := by
  constructor
  · intro s dca basis p0 p1 st? hbasis hgap hpm0 hpm1 hinv
    have hsig := trailingStep_sig s dca basis p0 st?
    have hwa := trailingStep_inactive_wasAbove s dca basis p0 st?
    have hiff := trailingStep_fired_iff s dca basis p1
      (trailingStep s dca basis p0 st?).1 hsig hwa
    have hchar := trailingStep_wasAbove_iff s dca basis p0 st?
      hbasis hgap hpm0 hpm1 hinv
    rw [hiff]
    exact and_congr_left' hchar
  · intro s dca basis p
    simp only [trailingStep, trailRebase]
    split_ifs <;> simp_all

/-- C2 (witness): cost basis 100, start 5%, gap 0.5%: price 110 arms and
trails (line 109.45); a drop to 100 is a downward crossing. -/
theorem trailing_exit_downward_cross_witness :
    ((trailingStep ⟨1/2, 5, 5/2⟩ 0 100 100
        (some (trailingStep ⟨1/2, 5, 5/2⟩ 0 100 110 none).1)).2 = true
      ↔ ((trailingStep ⟨1/2, 5, 5/2⟩ 0 100 110 none).1.line ≤ 110
         ∧ 100 < (trailingStep ⟨1/2, 5, 5/2⟩ 0 100 100
             (some (trailingStep ⟨1/2, 5, 5/2⟩ 0 100 110 none).1)).1.line)) :=
  trailing_exit_downward_cross.1 ⟨1/2, 5, 5/2⟩ 0 100 110 100 none
    (by norm_num) (by norm_num) (by norm_num) (by norm_num)
    (fun st h => nomatch h)

/-- C4: while the trailing state is active with matching settings, each
tick sets the line to `max(oldLine, max(baseLine, peak*(1-gapPct/100)))`;
the line never decreases and never falls below the base profit-start
line implied by the current cost basis and DCA count, over any sequence
of ticks. -/
theorem trailing_line_monotone :
    (∀ (s : TrailSettings) (dca : ℕ) (basis p : ℚ) (st : TrailState),
       st.active = true → st.sig = s →
       ((trailingStep s dca basis p (some st)).1.line
          = max st.line (max (basePmLine s dca basis)
              ((trailingStep s dca basis p (some st)).1.peak * (1 - s.gapPct / 100)))
        ∧ st.line ≤ (trailingStep s dca basis p (some st)).1.line
        ∧ basePmLine s dca basis ≤ (trailingStep s dca basis p (some st)).1.line))
    ∧ (∀ (s : TrailSettings) (dca : ℕ) (basis : ℚ) (st : TrailState) (prices : List ℚ),
       st.active = true → st.sig = s →
       st.line ≤ (trailRun s dca basis st prices).line) := by
  constructor
  · intro s dca basis p st hact hsig
    obtain ⟨h1, h2, h3, _⟩ := trailingStep_active_step s dca basis p st hact hsig
    exact ⟨h1, h2, h3⟩
  · intro s dca basis st prices
    induction prices generalizing st with
    | nil => intro _ _; exact le_refl _
    | cons p ps ih =>
      intro hact hsig
      obtain ⟨_, h2, _, hact'⟩ := trailingStep_active_step s dca basis p st hact hsig
      have hsig' := trailingStep_sig s dca basis p (some st)
      have := ih (trailingStep s dca basis p (some st)).1 hact' hsig'
      calc st.line ≤ (trailingStep s dca basis p (some st)).1.line := h2
        _ ≤ _ := this

/-- C4 (witness): an active state at line 105, peak 110, price 120. -/
theorem trailing_line_monotone_witness :
    ((trailingStep ⟨1/2, 5, 5/2⟩ 0 100 120 (some ⟨true, 105, 110, true, ⟨1/2, 5, 5/2⟩⟩)).1.line
       = max (105:ℚ) (max (basePmLine ⟨1/2, 5, 5/2⟩ 0 100)
           ((trailingStep ⟨1/2, 5, 5/2⟩ 0 100 120
              (some ⟨true, 105, 110, true, ⟨1/2, 5, 5/2⟩⟩)).1.peak * (1 - (1/2 : ℚ) / 100)))
     ∧ (105:ℚ) ≤ (trailingStep ⟨1/2, 5, 5/2⟩ 0 100 120
         (some ⟨true, 105, 110, true, ⟨1/2, 5, 5/2⟩⟩)).1.line
     ∧ basePmLine ⟨1/2, 5, 5/2⟩ 0 100 ≤ (trailingStep ⟨1/2, 5, 5/2⟩ 0 100 120
         (some ⟨true, 105, 110, true, ⟨1/2, 5, 5/2⟩⟩)).1.line) :=
  trailing_line_monotone.1 ⟨1/2, 5, 5/2⟩ 0 100 120 ⟨true, 105, 110, true, ⟨1/2, 5, 5/2⟩⟩
    rfl rfl

theorem dca_stage_advance_part1
    (levels : List ℚ) (maxBuys cooldownMin : ℕ) (value multiplier buyingPower : ℚ)
    (g : ℚ) (n : ℤ) (succ : Bool) (now : ℚ) (sym : String) (stage : ℕ)
    (window : DcaWindowState) (trailing : Option TrailState) :
    ((dcaStep levels maxBuys cooldownMin value multiplier buyingPower g n succ now
        sym stage window trailing).stage = stage + 1
      ↔ (dcaStep levels maxBuys cooldownMin value multiplier buyingPower g n succ now
        sym stage window trailing).action = DcaAction.buySuccess)
    ∧ ((dcaStep levels maxBuys cooldownMin value multiplier buyingPower g n succ now
        sym stage window trailing).stage = stage
       ∨ (dcaStep levels maxBuys cooldownMin value multiplier buyingPower g n succ now
        sym stage window trailing).stage = stage + 1)
    ∧ ((dcaStep levels maxBuys cooldownMin value multiplier buyingPower g n succ now
        sym stage window trailing).action = DcaAction.buySuccess →
       (dcaStep levels maxBuys cooldownMin value multiplier buyingPower g n succ now
        sym stage window trailing).trailing = none) := by
  simp only [dcaStep]
  split_ifs <;> simp



lemma mem_insertByCreatedAsc (x y : Order) (l : List Order) :
    y ∈ insertByCreatedAsc x l ↔ y = x ∨ y ∈ l := by
  induction l with
  | nil => simp [insertByCreatedAsc]
  | cons z zs ih =>
    unfold insertByCreatedAsc
    split_ifs with h
    · simp only [List.mem_cons, ih]
      try tauto
    · simp only [List.mem_cons]
      try tauto

lemma mem_sortByCreatedAsc_aux (y : Order) (l acc : List Order) :
    y ∈ l.foldl (fun a x => insertByCreatedAsc x a) acc ↔ y ∈ acc ∨ y ∈ l := by
  induction l generalizing acc with
  | nil => simp
  | cons z zs ih =>
    simp only [List.foldl_cons, ih, mem_insertByCreatedAsc, List.mem_cons]
    tauto

lemma mem_sortByCreatedAsc (y : Order) (l : List Order) :
    y ∈ sortByCreatedAsc l ↔ y ∈ l := by
  unfold sortByCreatedAsc
  rw [mem_sortByCreatedAsc_aux]
  simp

lemma stagesFromHistory_zero (orders : List Order)
    (hsell : ∃ o ∈ orders, o.state = "filled" ∧ o.side = "sell")
    (hle : ∀ o ∈ orders, o.state = "filled" → o.side = "buy" →
      ∀ o' ∈ orders, o'.state = "filled" → o'.side = "sell" →
        o.created_at ≤ o'.created_at) :
    stagesFromHistory orders = 0 := by
  obtain ⟨sell, hsellmem, hsellstate, hsellside⟩ := hsell
  simp only [stagesFromHistory]
  set filled := orders.filter (fun o =>
    decide (o.state = "filled") && (decide (o.side = "buy") || decide (o.side = "sell")))
    with hfilled
  set sorted := sortByCreatedAsc filled with hsorted
  have hsellmem' : sell ∈ sorted.reverse := by
    rw [List.mem_reverse, hsorted, mem_sortByCreatedAsc, hfilled, List.mem_filter]
    exact ⟨hsellmem, by simp [hsellstate, hsellside]⟩
  -- find? must return some sell order
  rcases hfind : sorted.reverse.find? (fun o => decide (o.side = "sell")) with _ | a
  · exfalso
    have := List.find?_eq_none.mp hfind sell hsellmem'
    simp [hsellside] at this
  · rw [hfind]
    have hamem : a ∈ orders ∧ a.state = "filled" ∧ a.side = "sell" := by
      have h1 : a ∈ sorted.reverse := List.mem_of_find?_eq_some hfind
      have h2 := List.find?_some hfind
      rw [List.mem_reverse, hsorted, mem_sortByCreatedAsc, hfilled, List.mem_filter] at h1
      refine ⟨h1.1, ?_, by simpa using h2⟩
      have := h1.2
      simp only [Bool.and_eq_true, decide_eq_true_eq] at this
      exact this.1
    simp only [Option.map_some']
    have hrel : sorted.filter (fun (o : Order) =>
        decide (o.side = "buy") && decide (a.created_at < o.created_at)) = [] := by
      rw [List.filter_eq_nil_iff]
      intro o homem
      rw [hsorted, mem_sortByCreatedAsc, hfilled, List.mem_filter] at homem
      simp only [Bool.and_eq_true, decide_eq_true_eq, not_and]
      intro hbuy
      have hostate : o.state = "filled" := by
        have := homem.2
        simp only [Bool.and_eq_true, decide_eq_true_eq] at this
        exact this.1
      have := hle o homem.1 hostate hbuy a hamem.1 hamem.2.1 hamem.2.2
      omega
    rw [hrel]




/-- C5: the DCA stage advances by exactly 1 on a successful DCA buy
(regardless of whether the hard or the signal condition triggered it),
never changes otherwise, and a successful buy invalidates the trailing
state; after a trade-closing sell (every filled buy at or before the
latest filled sell), the stage reconstructed from history is 0. -/
theorem dca_stage_advances :
    (∀ (levels : List ℚ) (maxBuys cooldownMin : ℕ)
       (value multiplier buyingPower g : ℚ) (n : ℤ) (succ : Bool)
       (now : ℚ) (sym : String) (stage : ℕ) (window : DcaWindowState)
       (trailing : Option TrailState),
       ((dcaStep levels maxBuys cooldownMin value multiplier buyingPower g n succ now
           sym stage window trailing).stage = stage + 1
         ↔ (dcaStep levels maxBuys cooldownMin value multiplier buyingPower g n succ now
           sym stage window trailing).action = DcaAction.buySuccess)
       ∧ ((dcaStep levels maxBuys cooldownMin value multiplier buyingPower g n succ now
           sym stage window trailing).stage = stage
          ∨ (dcaStep levels maxBuys cooldownMin value multiplier buyingPower g n succ now
           sym stage window trailing).stage = stage + 1)
       ∧ ((dcaStep levels maxBuys cooldownMin value multiplier buyingPower g n succ now
           sym stage window trailing).action = DcaAction.buySuccess →
          (dcaStep levels maxBuys cooldownMin value multiplier buyingPower g n succ now
           sym stage window trailing).trailing = none))
    ∧ (∀ orders : List Order,
       (∃ o ∈ orders, o.state = "filled" ∧ o.side = "sell") →
       (∀ o ∈ orders, o.state = "filled" → o.side = "buy" →
         ∀ o' ∈ orders, o'.state = "filled" → o'.side = "sell" →
           o.created_at ≤ o'.created_at) →
       stagesFromHistory orders = 0) :=
  ⟨fun levels maxBuys cooldownMin value multiplier buyingPower g n succ now
      sym stage window trailing =>
    dca_stage_advance_part1 levels maxBuys cooldownMin value multiplier buyingPower
      g n succ now sym stage window trailing,
   fun orders h1 h2 => stagesFromHistory_zero orders h1 h2⟩

/-- C5 (witness): a concrete successful DCA buy advances stage 0 to 1,
and a buy-then-sell history reconstructs stage 0. -/
theorem dca_stage_advances_witness :
    (((dcaStep [-5/2] 2 60 100 2 1000 (-3) 0 true 100 "BTC" 0 wWindow2 none).stage = 0 + 1
       ↔ (dcaStep [-5/2] 2 60 100 2 1000 (-3) 0 true 100 "BTC" 0 wWindow2 none).action
           = DcaAction.buySuccess)
     ∧ stagesFromHistory [wBuyOrder, wSellOrder] = 0) :=
  ⟨(dca_stage_advances.1 [-5/2] 2 60 100 2 1000 (-3) 0 true 100 "BTC" 0 wWindow2 none).1,
   dca_stage_advances.2 [wBuyOrder, wSellOrder]
     (by exact ⟨wSellOrder, by decide, by decide, by decide⟩)
     (by intro o ho h1 h2 o' ho' h3 h4; fin_cases ho <;> fin_cases ho' <;> first
        | decide
        | (exfalso; revert h1 h2 h3 h4; decide))⟩



lemma cooldownOk_iff (cooldownMin : ℕ) (l : List ℚ) (now : ℚ) :
    ((if 0 < cooldownMin then
        (if l ≠ [] then decide ((cooldownMin : ℚ) * 60 ≤ now - listMax l) else true)
      else true) = true)
      ↔ dcaCooldownSatisfied cooldownMin l now := by
  unfold dcaCooldownSatisfied
  split_ifs with h1 h2
  · simp only [decide_eq_true_eq]
    constructor
    · intro h; exact Or.inr (Or.inr h)
    · rintro (h | h | h)
      · omega
      · exact absurd h h2
      · exact h
  · simp only [true_iff]
    exact Or.inr (Or.inl (not_not.mp h2))
  · simp only [true_iff]
    exact Or.inl (by omega)

lemma dcaWindowCount_idem (st : DcaWindowState) (sym : String) (now : ℚ) :
    (dcaWindowCount (dcaWindowCount st sym now).2 sym now).1
      = (dcaWindowCount st sym now).1 := by
  unfold dcaWindowCount
  by_cases h : normSym sym = ""
  · rw [if_pos h, if_pos h]
  · simp only [if_neg h]
    simp [List.filter_filter]



/-- C6: a DCA buy order is attempted only if the pruned window count is
below `maxBuys` and the cooldown is satisfied (no cooldown configured,
no prior buy, or the last buy at least `cooldownMin` minutes old); when
the gate refuses, the skip reason distinguishes window exhaustion from
cooldown, and neither the stage, the trailing state, nor the window
count changes (the buy list is only pruned). -/
theorem dca_gate_contract :
    ∀ (levels : List ℚ) (maxBuys cooldownMin : ℕ)
      (value multiplier buyingPower g : ℚ) (n : ℤ) (succ : Bool)
      (now : ℚ) (sym : String) (stage : ℕ) (window : DcaWindowState)
      (trailing : Option TrailState),
      (((dcaStep levels maxBuys cooldownMin value multiplier buyingPower g n succ now
           sym stage window trailing).action = DcaAction.buySuccess
        ∨ (dcaStep levels maxBuys cooldownMin value multiplier buyingPower g n succ now
           sym stage window trailing).action = DcaAction.buyFail) →
        ((dcaWindowCount window sym now).1 < maxBuys
         ∧ dcaCooldownSatisfied cooldownMin
             ((dcaWindowCount window sym now).2.buyTs sym) now))
      ∧ (dcaTrigger levels stage g n →
         maxBuys ≤ (dcaWindowCount window sym now).1 →
          ((dcaStep levels maxBuys cooldownMin value multiplier buyingPower g n succ now
              sym stage window trailing).action = DcaAction.skipWindow
           ∧ (dcaStep levels maxBuys cooldownMin value multiplier buyingPower g n succ now
              sym stage window trailing).stage = stage
           ∧ (dcaStep levels maxBuys cooldownMin value multiplier buyingPower g n succ now
              sym stage window trailing).trailing = trailing
           ∧ (dcaStep levels maxBuys cooldownMin value multiplier buyingPower g n succ now
              sym stage window trailing).window = (dcaWindowCount window sym now).2
           ∧ (dcaWindowCount (dcaStep levels maxBuys cooldownMin value multiplier
                buyingPower g n succ now sym stage window trailing).window sym now).1
               = (dcaWindowCount window sym now).1))
      ∧ (dcaTrigger levels stage g n →
         (dcaWindowCount window sym now).1 < maxBuys →
         ¬ dcaCooldownSatisfied cooldownMin
             ((dcaWindowCount window sym now).2.buyTs sym) now →
          ((dcaStep levels maxBuys cooldownMin value multiplier buyingPower g n succ now
              sym stage window trailing).action = DcaAction.skipCooldown
           ∧ (dcaStep levels maxBuys cooldownMin value multiplier buyingPower g n succ now
              sym stage window trailing).stage = stage
           ∧ (dcaStep levels maxBuys cooldownMin value multiplier buyingPower g n succ now
              sym stage window trailing).trailing = trailing
           ∧ (dcaStep levels maxBuys cooldownMin value multiplier buyingPower g n succ now
              sym stage window trailing).window = (dcaWindowCount window sym now).2
           ∧ (dcaWindowCount (dcaStep levels maxBuys cooldownMin value multiplier
                buyingPower g n succ now sym stage window trailing).window sym now).1
               = (dcaWindowCount window sym now).1)) := by
  intro levels maxBuys cooldownMin value multiplier buyingPower g n succ now
    sym stage window trailing
  by_cases htrig : dcaTrigger levels stage g n
  · simp only [dcaStep, if_pos htrig]
    split_ifs
    all_goals refine ⟨?_, ?_, ?_⟩
    all_goals first
      | ((rintro (h | h) <;> simp at h); done)
      | ((intro hor
          refine ⟨by omega, ?_⟩
          rw [← cooldownOk_iff]
          split_ifs <;> simp_all); done)
      | ((intro h1 h2
          exact ⟨rfl, rfl, rfl, rfl, dcaWindowCount_idem window sym now⟩); done)
      | ((intro h1 h2 h3
          exact ⟨rfl, rfl, rfl, rfl, dcaWindowCount_idem window sym now⟩); done)
      | ((intro h1 hle; omega); done)
      | ((intro h1 hle h3; omega); done)
      | ((intro h1 h2 hcs
          exfalso
          apply hcs
          rw [← cooldownOk_iff]
          split_ifs <;> simp_all); done)
  · simp only [dcaStep, if_neg htrig]
    refine ⟨?_, ?_, ?_⟩
    · rintro (h | h) <;> simp at h
    · intro h; exact absurd h htrig
    · intro h; exact absurd h htrig



/-- C6 (witness): with `maxBuys = 0` a triggered DCA is refused with the
window-exhausted skip and no state change. -/
theorem dca_gate_contract_witness :
    ((dcaStep [-5/2] 0 60 100 2 1000 (-3) 0 true 100 "BTC" 0 wWindow2 none).action
        = DcaAction.skipWindow
     ∧ (dcaStep [-5/2] 0 60 100 2 1000 (-3) 0 true 100 "BTC" 0 wWindow2 none).stage = 0
     ∧ (dcaStep [-5/2] 0 60 100 2 1000 (-3) 0 true 100 "BTC" 0 wWindow2 none).trailing
         = none
     ∧ (dcaStep [-5/2] 0 60 100 2 1000 (-3) 0 true 100 "BTC" 0 wWindow2 none).window
         = (dcaWindowCount wWindow2 "BTC" 100).2
     ∧ (dcaWindowCount (dcaStep [-5/2] 0 60 100 2 1000 (-3) 0 true 100 "BTC" 0
          wWindow2 none).window "BTC" 100).1
         = (dcaWindowCount wWindow2 "BTC" 100).1) :=
  (dca_gate_contract [-5/2] 0 60 100 2 1000 (-3) 0 true 100 "BTC" 0 wWindow2 none).2.1
    (Or.inl (by norm_num [dcaHardLevel, List.getD]))
    (Nat.zero_le _)

lemma execWalk_nonpos (es : List Execution) (r t : ℚ) (h : r ≤ 0) :
    execWalk es r t = (r, t) := by
  cases es with
  | nil => rfl
  | cons e es => simp [execWalk, if_pos h]

lemma lifoConsume_zero (es : List Execution) : lifoConsume es 0 = (0, 0) := by
  cases es with
  | nil => rfl
  | cons e es => simp [lifoConsume]

lemma lifoConsume_nonneg (es : List Execution) (need : ℚ) (h : 0 ≤ need) :
    0 ≤ (lifoConsume es need).2 := by
  induction es generalizing need with
  | nil => simpa using h
  | cons e es ih =>
    unfold lifoConsume
    split_ifs with h1 h2
    · simpa using h
    · simp
    · simpa using ih (need - e.quantity) (by linarith [not_le.mp h2])

lemma execWalk_eq_lifoConsume (es : List Execution) (r t : ℚ) :
    execWalk es r t = ((lifoConsume es r).2, t + (lifoConsume es r).1) := by
  induction es generalizing r t with
  | nil => simp [execWalk, lifoConsume]
  | cons e es ih =>
    unfold execWalk lifoConsume
    split_ifs with h1 h2 h3 h4
    · simp
    · simp
    · exact absurd (le_of_lt h2) h3
    · have hq : r = e.quantity := le_antisymm h4 (not_lt.mp h2)
      rw [ih, hq, sub_self, lifoConsume_zero]
      simp [hq]
    · rw [ih]
      exact Prod.ext rfl (by ring)

lemma execWalk_cons (e : Execution) (es : List Execution) (r t : ℚ) :
    execWalk (e :: es) r t
      = if r ≤ 0 then (r, t)
        else if r < e.quantity then (0, t + r * e.effective_price)
        else execWalk es (r - e.quantity) (t + e.quantity * e.effective_price) := rfl

lemma execWalk_append (l1 l2 : List Execution) (r t : ℚ) :
    execWalk (l1 ++ l2) r t
      = execWalk l2 (execWalk l1 r t).1 (execWalk l1 r t).2 := by
  induction l1 generalizing r t with
  | nil => simp [execWalk]
  | cons e l1 ih =>
    rw [List.cons_append, execWalk_cons, execWalk_cons]
    split_ifs with h1 h2
    · rw [execWalk_nonpos l2 r t h1]
    · rw [execWalk_nonpos l2 0 _ (le_refl 0)]
    · exact ih _ _

lemma orderWalk_eq_flatten (os : List Order) (r t : ℚ) :
    orderWalk os r t
      = execWalk (os.flatMap (fun o => o.executions)) r t := by
  induction os generalizing r t with
  | nil => simp [orderWalk, execWalk]
  | cons o os ih =>
    have hcons : orderWalk (o :: os) r t
        = if (execWalk o.executions r t).1 ≤ 0 then execWalk o.executions r t
          else orderWalk os (execWalk o.executions r t).1
            (execWalk o.executions r t).2 := rfl
    rw [hcons, List.flatMap_cons, execWalk_append]
    split_ifs with h1
    · rw [execWalk_nonpos _ _ _ h1]
    · exact ih _ _

/-- C3: the cost-basis reconstructor equals the LIFO-matched weighted
average: filled buys consumed newest-first against the held quantity,
unaccounted quantity valued at the (nonnegative) fallback price, total
divided by the held quantity. -/
theorem cost_basis_lifo_equiv (orders : List Order) (qty fb : ℚ)
    (hqty : 0 < qty) (hfb : 0 ≤ fb) :
    calculateCostBasisSym orders qty fb = lifoMatchedAvgCost orders qty fb := by
  simp only [calculateCostBasisSym, lifoMatchedAvgCost]
  rw [orderWalk_eq_flatten, execWalk_eq_lifoConsume, if_pos hqty]
  have hr : 0 ≤ (lifoConsume ((filledBuysDesc orders).flatMap
      fun o => o.executions) qty).2 :=
    lifoConsume_nonneg _ qty hqty.le
  by_cases h : 0 < (lifoConsume ((filledBuysDesc orders).flatMap
      fun o => o.executions) qty).2 ∧ 0 < fb
  · rw [if_pos h, max_eq_left hr]
    ring_nf
  · rw [if_neg h]
    rcases not_and_or.mp h with h' | h'
    · have h0 : (lifoConsume ((filledBuysDesc orders).flatMap
          fun o => o.executions) qty).2 = 0 := le_antisymm (not_lt.mp h') hr
      rw [max_eq_left hr, h0]
      ring_nf
    · have h0 : fb = 0 := le_antisymm (not_lt.mp h') hfb
      rw [max_eq_left hr, h0]
      ring_nf




/-- C3 (witness): two buy orders matched against a holding of 2.5. -/
theorem cost_basis_lifo_equiv_witness :
    calculateCostBasisSym [wCbOrder1, wCbOrder2] (5/2) 30
      = lifoMatchedAvgCost [wCbOrder1, wCbOrder2] (5/2) 30 :=
  cost_basis_lifo_equiv [wCbOrder1, wCbOrder2] (5/2) 30 (by norm_num) (by norm_num)

/-- C8 (counterexample): on a tick with no trade (and trading pairs
available), the orchestrator still writes the status snapshot and
appends to the account-value history; only the cost-basis recompute is
skipped.  The claim that these outputs occur only on trade ticks is
false. -/
theorem tick_tail_writes_every_tick :
    (manageTradesTail false false).wroteStatusSnapshot = true
    ∧ (manageTradesTail false false).appendedAccountValueHistory = true
    ∧ (manageTradesTail false false).recomputedCostBasis = false := by
  decide

/-- C8 (amended): the cost-basis recompute and DCA-stage recount happen
iff a trade executed this tick, while the status snapshot and the
account-value-history append happen on every completed tick; an early
return on a failed trading-pairs fetch produces none of these. -/
theorem tick_tail_effects :
    ∀ tradesMade : Bool,
      ((manageTradesTail false tradesMade).recomputedCostBasis = tradesMade
       ∧ (manageTradesTail false tradesMade).recountedDcaStages = tradesMade
       ∧ (manageTradesTail false tradesMade).wroteStatusSnapshot = true
       ∧ (manageTradesTail false tradesMade).appendedAccountValueHistory = true)
      ∧ manageTradesTail true tradesMade = ⟨false, false, false, false⟩ := by
  intro tradesMade
  cases tradesMade <;> decide

lemma mem_insertDescQ (x y : ℚ) (l : List ℚ) :
    y ∈ insertDescQ x l ↔ y = x ∨ y ∈ l := by
  induction l with
  | nil => simp [insertDescQ]
  | cons z zs ih =>
    unfold insertDescQ
    split_ifs with h
    · simp only [List.mem_cons]
      try tauto
    · simp only [List.mem_cons, ih]
      try tauto

lemma pairwise_insertDescQ (x : ℚ) (l : List ℚ)
    (h : List.Pairwise (· ≥ ·) l) :
    List.Pairwise (· ≥ ·) (insertDescQ x l) := by
  induction l with
  | nil => simp [insertDescQ]
  | cons y ys ih =>
    rw [List.pairwise_cons] at h
    unfold insertDescQ
    split_ifs with hlt
    · rw [List.pairwise_cons]
      constructor
      · intro z hz
        rcases List.mem_cons.mp hz with hz | hz
        · subst hz; linarith
        · have := h.1 z hz
          linarith
      · rw [List.pairwise_cons]
        exact h
    · rw [List.pairwise_cons]
      constructor
      · intro z hz
        rcases (mem_insertDescQ x z ys).mp hz with hz | hz
        · subst hz; linarith [not_lt.mp hlt]
        · exact h.1 z hz
      · exact ih h.2

lemma pairwise_sortDescQ (l : List ℚ) :
    List.Pairwise (· ≥ ·) (sortDescQ l) := by
  unfold sortDescQ
  induction l with
  | nil => simp
  | cons x xs ih => exact pairwise_insertDescQ x _ ih

/-- C9: the signal readers never raise — missing files give the neutral
defaults (0 and `[]`), unparseable content gives 0, parseable content
gives the truncated integer, and the price-level reader always returns a
(descending) list. -/
theorem signal_readers_defensive :
    (readLongDcaSignal none = 0 ∧ readShortDcaSignal none = 0
      ∧ readLongPriceLevels none = [])
    ∧ (∀ s : String, pyParseFloat (pyStrip s) = none →
        readLongDcaSignal (some s) = 0 ∧ readShortDcaSignal (some s) = 0)
    ∧ (∀ (s : String) (q : ℚ), pyParseFloat (pyStrip s) = some q →
        readLongDcaSignal (some s) = pyTruncInt q
        ∧ readShortDcaSignal (some s) = pyTruncInt q)
    ∧ (∀ c : Option String, List.Pairwise (· ≥ ·) (readLongPriceLevels c)) := by
  refine ⟨⟨rfl, rfl, rfl⟩, ?_, ?_, ?_⟩
  · intro s h
    constructor <;> (simp only [readLongDcaSignal, readShortDcaSignal, h])
  · intro s q h
    constructor <;> (simp only [readLongDcaSignal, readShortDcaSignal, h])
  · intro c
    cases c with
    | none => simp [readLongPriceLevels]
    | some txt =>
      simp only [readLongPriceLevels]
      split_ifs
      · simp
      · exact pairwise_sortDescQ _

/-- C9 (witness): unparseable content gives 0; a bracketed list parses
to a descending list. -/
theorem signal_readers_defensive_witness :
    (readLongDcaSignal (some "garbage!") = 0
     ∧ readShortDcaSignal (some "garbage!") = 0)
    ∧ List.Pairwise (· ≥ ·) (readLongPriceLevels (some "[3, 1, 2]")) :=
  ⟨signal_readers_defensive.2.1 "garbage!" (by decide),
   signal_readers_defensive.2.2.2 (some "[3, 1, 2]")⟩



lemma dropWhile_eq_self_of_all {α : Type} (p : α → Bool) (l : List α)
    (h : ∀ c ∈ l, p c = false) :
    l.dropWhile p = l := by
  cases l with
  | nil => rfl
  | cons c cs => simp [List.dropWhile, h c (List.mem_cons_self _ _)]

lemma pyStripList_no_ws (cs : List Char)
    (h : ∀ c ∈ cs, c.isWhitespace = false) :
    pyStripList cs = cs := by
  unfold pyStripList
  rw [dropWhile_eq_self_of_all _ _ h]
  rw [dropWhile_eq_self_of_all _ _ (fun c hc => h c (List.mem_reverse.mp hc))]
  exact List.reverse_reverse cs

lemma hexDigitChar_not_ws (n : ℕ) : (hexDigitChar n).isWhitespace = false := by
  unfold hexDigitChar
  by_cases h : n < 16
  · interval_cases n <;> decide
  · rw [List.getD_eq_default]
    · decide
    · simpa using le_of_not_lt h

lemma hexDigitVal_hexDigitChar (m : ℕ) (h : m < 16) :
    hexDigitVal (hexDigitChar m) = some m := by
  interval_cases m <;> decide

lemma bytesFromHexList_bytesHex (bs : List ℕ) (h : ∀ b ∈ bs, b < 256) :
    bytesFromHexList (bs.flatMap byteToHexChars) = some bs := by
  induction bs with
  | nil => rfl
  | cons b bs ih =>
    have hb : b < 256 := h b (List.mem_cons_self _ _)
    have hdiv : b / 16 < 16 := by omega
    have hmod : b % 16 < 16 := by omega
    rw [List.flatMap_cons]
    show bytesFromHexList
      (hexDigitChar (b / 16) :: hexDigitChar (b % 16) :: bs.flatMap byteToHexChars)
      = some (b :: bs)
    unfold bytesFromHexList
    rw [hexDigitVal_hexDigitChar _ hdiv, hexDigitVal_hexDigitChar _ hmod,
      ih (fun x hx => h x (List.mem_cons_of_mem _ hx))]
    show some ((16 * (b / 16) + b % 16) :: bs) = some (b :: bs)
    have : 16 * (b / 16) + b % 16 = b := by omega
    rw [this]

/-- C10: encrypting credentials and decrypting with the same passphrase
and base directory returns exactly the original (key, secret) pair, for
any cipher/codec satisfying the library contracts and any byte salt. -/
theorem creds_roundtrip :
    ∀ (Key Payload Token : Type) (cipher : FernetLike Key Payload Token)
      (codec : JsonCredCodec Payload) (deriveKey : String → List ℕ → Key)
      (fs : CredFS Token) (baseDir passphrase key secret : String)
      (salt : List ℕ),
      (∀ b ∈ salt, b < 256) →
      decrypt_credentials cipher codec deriveKey
        (encrypt_credentials cipher codec deriveKey fs baseDir passphrase key
          secret salt)
        baseDir passphrase = some (key, secret) := by
  intro Key Payload Token cipher codec deriveKey fs baseDir passphrase key secret
    salt hsalt
  have hlist : (bytesHex salt).toList = salt.flatMap byteToHexChars := rfl
  have hnws : ∀ c ∈ salt.flatMap byteToHexChars, c.isWhitespace = false := by
    intro c hc
    obtain ⟨b, _, hcb⟩ := List.mem_flatMap.mp hc
    simp only [byteToHexChars, List.mem_cons, List.not_mem_nil, or_false] at hcb
    rcases hcb with hcb | hcb <;> exact hcb ▸ hexDigitChar_not_ws _
  simp only [decrypt_credentials, encrypt_credentials, if_true, hlist,
    pyStripList_no_ws _ hnws, bytesFromHexList_bytesHex salt hsalt,
    cipher.decrypt_encrypt, codec.loads_dumps]

/-- C10 (witness): a concrete round trip through an empty file system. -/
theorem creds_roundtrip_witness :
    decrypt_credentials wCipher wCodec wDeriveKey
      (encrypt_credentials wCipher wCodec wDeriveKey wEmptyFS "/app" "pw" "k" "sec"
        [0, 255, 16])
      "/app" "pw" = some ("k", "sec") :=
  creds_roundtrip _ _ _ wCipher wCodec wDeriveKey wEmptyFS "/app" "pw" "k" "sec"
    [0, 255, 16] (by decide)

end PowerTrader
